import Mathlib

/-!
Verification development for the mediaconv batch video-conversion scripts.

The definitions below are a shallow embedding of the Python sources
`src/mediaconv.py`, `src/main.py` and `src/reducer.py`:

* pure string manipulation (`pathlib.Path.name` / `.stem`, `str.strip`,
  `str.replace`, decimal rendering of integers) is embedded as executable
  Lean functions over `String` / `List Char`;
* the filesystem is embedded as the finite list of paths that exist at a
  given moment (`List String`), and `os.path.exists` as list membership;
* the external collaborators (ffprobe, ffmpeg) are embedded as explicit
  per-call outcome data (`ProbeOutcome`, the `ffmpeg_ok` field of
  `FileJob`), following the collaborator contracts of the spec: ffprobe
  either returns exit 0 with a stdout/stderr pair or fails with a
  diagnostic; ffmpeg either exits zero and writes the output file or
  exits non-zero and writes nothing;
* unbounded `while` loops are embedded with an explicit fuel parameter;
  running out of fuel yields `none` (the loop did not terminate within
  the given bound), and termination theorems show that enough fuel
  always exists;
* Python float arithmetic in `get_file_size` is embedded exactly: every
  value the loop manipulates is a byte count divided by a power of 1024,
  which a binary double represents exactly for all byte counts below
  2^53, so the loop state is represented by the integer byte count
  together with the number of divisions performed; the `:.1f` format is
  round-half-even to one decimal digit, embedded as exact integer
  arithmetic. In `reducer.py` the float expressions are embedded as
  rational arithmetic and Python `int()` as truncation toward zero.
-/

/-! ### Decimal rendering of natural numbers (Python `str(n)` inside f-strings) -/

/-- Little-endian decimal digits of `n`, computed with explicit fuel
(structural recursion; `fuel = n` suffices since `n / 10 < n` for `n ≠ 0`). -/
def decAux : Nat → Nat → List Nat
  | 0, _ => []
  | fuel + 1, n => if n = 0 then [] else n % 10 :: decAux fuel (n / 10)

/-- Little-endian decimal digits of `n`. -/
def decDigits (n : Nat) : List Nat := decAux n n

/-- Value of a little-endian digit list (used to prove the rendering injective). -/
def ofDec : List Nat → Nat
  | [] => 0
  | d :: ds => d + 10 * ofDec ds

/-- Decimal rendering of a natural number, as Python `str(n)` renders a
non-negative `int` inside an f-string. -/
def natToDecimalString (n : Nat) : String :=
  if n = 0 then "0" else String.mk ((decDigits n).reverse.map Nat.digitChar)

/-! ### Python string helpers used by the scripts -/

/-- Whitespace characters removed by Python `str.strip()`. -/
def isPySpace (c : Char) : Bool :=
  c == ' ' || c == '\t' || c == '\n' || c == '\r' || c == '\x0b' || c == '\x0c'

/-- Python `str.strip()`: drop leading and trailing whitespace. -/
def pyTrim (s : String) : String :=
  String.mk (((s.data.dropWhile isPySpace).reverse.dropWhile isPySpace).reverse)

/-- Python `pathlib.Path(p).name`: the part of the path after the last slash
(the paths produced by `os.scandir` never end in a slash). -/
def pyName (p : String) : String :=
  String.mk ((p.data.reverse.takeWhile (fun c => c != '/')).reverse)

/-- Python `pathlib.Path(p).stem`: the name without its last suffix.
pathlib strips from the last dot only when that dot is neither the first
nor the last character of the name (`0 < i < len(name) - 1`). -/
def pyStem (p : String) : String :=
  let nm := pyName p
  let rev := nm.data.reverse
  let after := rev.takeWhile (fun c => c != '.')
  if after.length = rev.length ∨ after.length = 0 ∨ after.length = rev.length - 1 then
    nm
  else
    String.mk ((rev.drop (after.length + 1)).reverse)

/-- The sanitized stem used by `convert_files`:
`Path(file_path).stem` followed by `.replace(" ", "_")` (a single-character
pattern, hence a character map). -/
def sanitizeStem (p : String) : String :=
  String.mk ((pyStem p).data.map (fun c => if c = ' ' then '_' else c))

/-- Python `"%s" % v` when `v` may be `None`: `str(None)` is the literal
text `None`. -/
def pyStr : Option String → String
  | none => "None"
  | some s => s

/-! ### Output Path Allocator (`output_path` in `src/mediaconv.py`) -/

/-- The candidate output file name tried at loop iteration `counter` of
`output_path`: `f"{converted_folder}/{file_prefix}_converted.mp4"` when
`counter == 0`, else `f"{converted_folder}/{file_prefix}_converted_{counter}.mp4"`. -/
def candidateName (folder stem : String) (counter : Nat) : String :=
  if counter = 0 then folder ++ "/" ++ stem ++ "_converted.mp4"
  else folder ++ "/" ++ stem ++ "_converted_" ++ natToDecimalString counter ++ ".mp4"

/-- The `while True` loop of `output_path` (mediaconv.py, lines 217-242):
build the candidate name for the current counter, return it if it does not
exist on the filesystem `fs`, otherwise increment the counter.  The first
`Nat` argument is fuel; `none` means the loop did not return within the
given number of iterations. -/
def output_path (fs : List String) (folder stem : String) : Nat → Nat → Option String
  | 0, _ => none
  | fuel + 1, counter =>
    if candidateName folder stem counter ∈ fs then
      output_path fs folder stem fuel (counter + 1)
    else some (candidateName folder stem counter)

/-- The inline allocation loop of `convert_files` in `src/main.py`
(lines 108-114): `counter = 1`, start from `{stem}_converted.mp4`, and
while the current candidate exists replace it by
`{stem}_converted_{counter}.mp4` and increment the counter. -/
def mainAllocLoop (fs : List String) (folder stem : String) :
    Nat → Nat → String → Option String
  | 0, _, current => if current ∈ fs then none else some current
  | fuel + 1, counter, current =>
    if current ∈ fs then
      mainAllocLoop fs folder stem fuel (counter + 1) (candidateName folder stem counter)
    else some current

/-- Entry point of the main.py allocation loop. -/
def mainAlloc (fs : List String) (folder stem : String) (fuel : Nat) : Option String :=
  mainAllocLoop fs folder stem fuel 1 (candidateName folder stem 0)

/-! ### Human-readable size formatting (`get_file_size` in both scripts) -/

/-- The unit list of `get_file_size`. -/
def sizeUnits : List String := ["B", "KB", "MB", "GB"]

/-- The unit selected after `k` divisions by 1024. -/
def unitName : Nat → String
  | 0 => "B"
  | 1 => "KB"
  | 2 => "MB"
  | _ => "GB"

/-- Python `f"{x:.1f}"` for `x = bytes / 1024^k`: the double holds this
value exactly (a byte count below 2^53 divided by a power of two), and the
format rounds it to one decimal digit, ties to even.  Embedded as exact
integer arithmetic on `10 * bytes` against the denominator `1024 ^ k`. -/
def formatAt (bytes k : Nat) : String :=
  let num := 10 * bytes
  let den := 1024 ^ k
  let q := num / den
  let r := num % den
  let n10 := if 2 * r < den then q
             else if den < 2 * r then q + 1
             else if q % 2 = 0 then q else q + 1
  natToDecimalString (n10 / 10) ++ "." ++ natToDecimalString (n10 % 10)

/-- The `for unit in ["B", "KB", "MB", "GB"]` loop of `get_file_size`:
after `k` exact divisions by 1024 the running value is `bytes / 1024^k`,
and the guard `file_size < 1024.0` is `bytes < 1024 ^ (k+1)`.  Falling off
the list is Python returning `None`. -/
def sizeLoop (bytes : Nat) : List String → Nat → Option String
  | [], _ => none
  | u :: us, k =>
    if bytes < 1024 ^ (k + 1) then some (formatAt bytes k ++ " " ++ u)
    else sizeLoop bytes us (k + 1)

/-- Embedding of `get_file_size` (mediaconv.py lines 181-189 and main.py
lines 69-77): returns the rendered size, or `none` when the unit list is
exhausted (the Python function falls off the loop and returns `None`). -/
def get_file_size (bytes : Nat) : Option String :=
  sizeLoop bytes sizeUnits 0

/-! ### Convertibility Filter (`check_file_convertibility`, `scan_directory`) -/

/-- Outcome of one ffprobe invocation, per the probe collaborator contract:
exit status zero with captured stdout/stderr, or a non-zero exit
(`subprocess.CalledProcessError`, since the call passes `check=True`)
with captured stderr. -/
inductive ProbeOutcome where
  | ok (stdout stderr : String)
  | err (stderr : String)
deriving DecidableEq

/-- Embedding of `check_file_convertibility` (mediaconv.py lines 133-178).
The probed codec name is `result.stdout.strip()`; a non-empty codec yields
`(True, success message)`, an empty codec yields `(False, problem message)`,
and a `CalledProcessError` is caught and yields `(False, error message)` —
the function always returns a verdict and never propagates the error. -/
def check_file_convertibility (file_path : String) (probe : ProbeOutcome) : Bool × String :=
  match probe with
  | ProbeOutcome.ok out errOut =>
    let codec_name := pyTrim out
    if codec_name ≠ "" then
      (true, "\"" ++ file_path ++ "\" can be converted to .mp4.")
    else
      (false, "Problem found in \"" ++ file_path ++ "\":\n" ++ pyTrim errOut ++
        ".\nFile will not be processed.\n")
  | ProbeOutcome.err errOut =>
    (false, "Error checking \"" ++ file_path ++ "\":\n" ++ pyTrim errOut ++
      ".\nFile will not be processed.\n")

/-- One entry yielded by `os.scandir(input_directory)`: its name, its path,
the results of `entry.is_dir()` and `entry.is_file()`, and the outcome the
probe collaborator would report for its path. -/
structure DirEntry where
  name : String
  path : String
  is_dir : Bool
  is_file : Bool
  probe : ProbeOutcome
deriving DecidableEq

/-- One iteration of the `for file_name in os.scandir(...)` loop of
`scan_directory` (mediaconv.py lines 110-120), acting on the accumulated
`(matching_files, log_messages)` pair: directories are skipped, files are
checked (eligible path appended, or rejection message logged), and entries
that are neither are logged as not a file. -/
def scanStep (acc : List String × List String) (e : DirEntry) : List String × List String :=
  if e.is_dir then acc
  else if e.is_file then
    match check_file_convertibility e.path e.probe with
    | (true, _) => (acc.1 ++ [e.path], acc.2)
    | (false, msg) => (acc.1, acc.2 ++ [msg])
  else (acc.1, acc.2 ++ ["\"" ++ e.name ++ "\" is not a file."])

/-- Embedding of `scan_directory` (mediaconv.py lines 98-130) on the list
of entries the directory scan yields, in scan order.  When no file is
eligible the function appends the sentinel message and returns `None` for
the file list.  (The Windows-only `os.path.abspath` normalization is the
identity in this POSIX-path model.) -/
def scan_directory (entries : List DirEntry) : Option (List String) × List String :=
  let r := entries.foldl scanStep ([], [])
  if r.1.isEmpty then (none, r.2 ++ ["No matching files found in directory."])
  else (some r.1, r.2)

/-- Whether `scan_directory` judges an entry eligible: a regular file whose
probe reports a codec name. -/
def eligE (e : DirEntry) : Bool :=
  !e.is_dir && e.is_file && (check_file_convertibility e.path e.probe).1

/-- The log message `scan_directory` appends for an entry, if any:
nothing for directories (silently skipped) and for eligible files, the
rejection message for ineligible files, and the not-a-file message for
entries that are neither files nor directories. -/
def rejMsg (e : DirEntry) : Option String :=
  if e.is_dir then none
  else if e.is_file then
    match check_file_convertibility e.path e.probe with
    | (true, _) => none
    | (false, msg) => some msg
  else some ("\"" ++ e.name ++ "\" is not a file.")

/-! ### Batch Accountant (`convert_files` in `src/mediaconv.py`) -/

/-- Environment behavior for one candidate file during the batch:
whether `os.path.getsize(file_path)` succeeds (the input still exists),
its size, whether the ffmpeg invocation exits zero (per the transcode
collaborator contract it writes the output file exactly when it exits
zero), and the size of the written output. -/
structure FileJob where
  path : String
  input_exists : Bool
  size : Nat
  ffmpeg_ok : Bool
  out_size : Nat
deriving DecidableEq

/-- The ConversionRecord of one attempted conversion: the per-file log
event `convert_files` emits.  A successful conversion logs the
`log_info` line (input name, output name, both sizes); a missing input or
a failed conversion is caught by the `except FileNotFoundError` handler
and logs an error record (a failed ffmpeg run leaves no output file, so
`os.path.getsize(output_file_path)` raises `FileNotFoundError`; the
diagnostic line `execute_ffmpeg` logs on the way is not a record). -/
inductive Outcome where
  | success (input_name output_name : String) (orig conv : Nat)
  | notFound (path : String)
  | failed (path : String)
deriving DecidableEq

/-- Whether a record is a Failed record (either failure shape). -/
def Outcome.isFailed : Outcome → Bool
  | .success _ _ _ _ => false
  | _ => true

/-- Converted-size contribution of a record: its converted size for a
Success record, zero otherwise. -/
def Outcome.convContribution : Outcome → Nat
  | .success _ _ _ conv => conv
  | _ => 0

/-- Original-size contribution of a record: its original size for a
Success record, zero otherwise. -/
def Outcome.origContribution : Outcome → Nat
  | .success _ _ orig _ => orig
  | _ => 0

/-- Sum of converted sizes over Success records only. -/
def sumConvSuccess (records : List Outcome) : Nat :=
  (records.map Outcome.convContribution).sum

/-- Sum of original sizes over Success records only. -/
def sumOrigSuccess (records : List Outcome) : Nat :=
  (records.map Outcome.origContribution).sum

/-- The record produced for a job names that job's file: a Success record
carries `Path(file_path).name`, a failure record carries the file path. -/
def recordMatchesJob (r : Outcome) (j : FileJob) : Prop :=
  match r with
  | .success nm _ _ _ => nm = pyName j.path
  | .notFound p => p = j.path
  | .failed p => p = j.path

/-- Embedding of `convert_files` (mediaconv.py lines 345-391).  For each
file, in order: `os.path.getsize` on the input (a missing input raises
`FileNotFoundError`, caught: an error record, nothing added to either
total); otherwise the original size is added to the original total
immediately; then `output_path` allocates the output name (fuel-bounded
search; exhausted fuel aborts the embedding like the non-terminating
Python loop would); then ffmpeg runs — on exit zero the output file now
exists, its size is added to the converted total and a Success record is
logged; on non-zero exit `execute_ffmpeg` swallows the error, no output
file exists, `os.path.getsize(output_file_path)` raises
`FileNotFoundError`, caught: an error record.  Returns the records in
order, the final filesystem, and the two running totals that
`summary_info` reports. -/
def convert_files (fuel : Nat) (folder : String) :
    List FileJob → List String → Option (List Outcome × List String × Nat × Nat)
  | [], fs => some ([], fs, 0, 0)
  | job :: rest, fs =>
    if job.input_exists then
      match output_path fs folder (sanitizeStem job.path) fuel 0 with
      | none => none
      | some out =>
        if job.ffmpeg_ok then
          match convert_files fuel folder rest (out :: fs) with
          | none => none
          | some (recs, fsF, o, c) =>
            some (Outcome.success (pyName job.path) (pyName out) job.size job.out_size :: recs,
              fsF, job.size + o, job.out_size + c)
        else
          match convert_files fuel folder rest fs with
          | none => none
          | some (recs, fsF, o, c) =>
            some (Outcome.failed job.path :: recs, fsF, job.size + o, c)
    else
      match convert_files fuel folder rest fs with
      | none => none
      | some (recs, fsF, o, c) => some (Outcome.notFound job.path :: recs, fsF, o, c)

/-! ### Batch loop of `src/main.py` (`convert_files`, lines 80-147) -/

/-- Result of main.py's `convert_files`: either the loop ran through all files
and wrote the summary (records in order plus the two totals), or an uncaught
exception escaped the function mid-batch — main.py's per-file `try` has only an
`except subprocess.CalledProcessError` handler (line 135), so a
`FileNotFoundError` raised by `os.path.getsize(file_path)` on a vanished input
(line 105) propagates, aborts the batch, and no summary is emitted. -/
inductive MainBatchResult where
  | completed (records : List Outcome) (fs : List String) (o c : Nat)
  | aborted (path : String)
deriving DecidableEq

/-- Whether a main.py batch ran to completion (summary written) rather than
being aborted by an uncaught exception. -/
def MainBatchResult.isCompleted : MainBatchResult → Bool
  | .completed _ _ _ _ => true
  | .aborted _ => false

/-- Embedding of `convert_files` in `src/main.py` (lines 80-147).  For each
file: `os.path.getsize` on the input — a missing input raises
`FileNotFoundError`, which no handler in this function catches, so the whole
batch aborts with no summary; otherwise the original size is added to the
original total, the inline loop (`mainAlloc`) allocates the output name
(fuel-bounded; exhausted fuel aborts the embedding like the non-terminating
Python loop would), and ffmpeg runs with `check=True` — a non-zero exit raises
`subprocess.CalledProcessError`, caught at line 135: an Error record is logged
and the loop continues; on exit zero the output file exists, its size is added
to the converted total and a success record is logged. -/
def main_convert_files (fuel : Nat) (folder : String) :
    List FileJob → List String → Option MainBatchResult
  | [], fs => some (.completed [] fs 0 0)
  | job :: rest, fs =>
    if job.input_exists then
      match mainAlloc fs folder (sanitizeStem job.path) fuel with
      | none => none
      | some out =>
        if job.ffmpeg_ok then
          match main_convert_files fuel folder rest (out :: fs) with
          | none => none
          | some (.completed recs fsF o c) =>
            some (.completed
              (Outcome.success (pyName job.path) (pyName out) job.size job.out_size :: recs)
              fsF (job.size + o) (job.out_size + c))
          | some (.aborted p) => some (.aborted p)
        else
          match main_convert_files fuel folder rest fs with
          | none => none
          | some (.completed recs fsF o c) =>
            some (.completed (Outcome.failed job.path :: recs) fsF (job.size + o) c)
          | some (.aborted p) => some (.aborted p)
    else some (.aborted job.path)

/-! ### Bitrate-reduction variant (`src/reducer.py`) -/

/-- Python `int()` on a real value: truncation toward zero. -/
def pyInt (q : ℚ) : ℤ :=
  if q < 0 then Int.ceil q else Int.floor q

/-- Embedding of `calculate_target_bitrate` (reducer.py lines 65-86):
`int(bitrate_reduction_factor * get_video_bitrate(input_file) *
(output_resolution[0] * output_resolution[1]) / (1280 * 720))` where
`bitrate_reduction_factor = target_size_mb / current_size_mb`.  Float
expressions are embedded over `ℚ`. -/
def calculate_target_bitrate (current_size_mb target_size_mb : ℚ) (bitrate : ℤ)
    (w h : ℤ) : ℤ :=
  let f := target_size_mb / current_size_mb
  pyInt (f * (bitrate : ℚ) * ((w : ℚ) * (h : ℚ)) / (1280 * 720))

/-! ## Decimal rendering is injective -/

theorem ofDec_decAux : ∀ fuel n : Nat, n ≤ fuel → ofDec (decAux fuel n) = n := by
  intro fuel
  induction fuel with
  | zero =>
    intro n hn
    have : n = 0 := by omega
    subst this
    simp [decAux, ofDec]
  | succ f ih =>
    intro n hn
    by_cases h : n = 0
    · simp [decAux, h, ofDec]
    · have hdiv : n / 10 ≤ f := by
        have := Nat.div_lt_self (Nat.pos_of_ne_zero h) (by norm_num : (1 : Nat) < 10)
        omega
      simp only [decAux, if_neg h, ofDec, ih _ hdiv]
      omega

theorem ofDec_decDigits (n : Nat) : ofDec (decDigits n) = n :=
  ofDec_decAux n n le_rfl

theorem decDigits_injective : Function.Injective decDigits := by
  intro a b h
  rw [← ofDec_decDigits a, ← ofDec_decDigits b, h]

theorem decAux_mem_lt : ∀ fuel n : Nat, ∀ d ∈ decAux fuel n, d < 10 := by
  intro fuel
  induction fuel with
  | zero => intro n d hd; simp [decAux] at hd
  | succ f ih =>
    intro n d hd
    by_cases h : n = 0
    · simp [decAux, h] at hd
    · simp only [decAux, if_neg h, List.mem_cons] at hd
      rcases hd with h1 | h2
      · subst h1; exact Nat.mod_lt _ (by norm_num)
      · exact ih _ _ h2

theorem decDigits_mem_lt (n : Nat) : ∀ d ∈ decDigits n, d < 10 :=
  decAux_mem_lt n n

theorem digitChar_inj_lt : ∀ a < 10, ∀ b < 10, Nat.digitChar a = Nat.digitChar b → a = b := by
  decide

theorem map_digitChar_cancel :
    ∀ ds es : List Nat, (∀ d ∈ ds, d < 10) → (∀ e ∈ es, e < 10) →
      ds.map Nat.digitChar = es.map Nat.digitChar → ds = es := by
  intro ds
  induction ds with
  | nil =>
    intro es _ _ h
    cases es with
    | nil => rfl
    | cons e es => simp at h
  | cons d ds ih =>
    intro es hds hes h
    cases es with
    | nil => simp at h
    | cons e es =>
      simp only [List.map_cons, List.cons.injEq] at h
      have hde : d = e :=
        digitChar_inj_lt d (hds d (by simp)) e (hes e (by simp)) h.1
      subst hde
      have htl := ih es (fun x hx => hds x (by simp [hx])) (fun x hx => hes x (by simp [hx])) h.2
      rw [htl]

theorem natToDecimalString_injective : Function.Injective natToDecimalString := by
  intro a b h
  unfold natToDecimalString at h
  by_cases ha : a = 0 <;> by_cases hb : b = 0
  · rw [ha, hb]
  · exfalso
    rw [if_pos ha, if_neg hb] at h
    have hd : (['0'] : List Char) = (decDigits b).reverse.map Nat.digitChar :=
      congrArg String.data h
    have h0 : (['0'] : List Char) = [0].map Nat.digitChar := by decide
    rw [h0] at hd
    have := map_digitChar_cancel [0] (decDigits b).reverse (by decide)
      (fun e he => decDigits_mem_lt b e (List.mem_reverse.mp he)) hd
    have hrev : decDigits b = [0] := by
      have := congrArg List.reverse this
      simpa using this.symm
    have := ofDec_decDigits b
    rw [hrev] at this
    simp [ofDec] at this
    exact hb this.symm
  · exfalso
    rw [if_neg ha, if_pos hb] at h
    have hd : (decDigits a).reverse.map Nat.digitChar = (['0'] : List Char) :=
      congrArg String.data h
    have h0 : (['0'] : List Char) = [0].map Nat.digitChar := by decide
    rw [h0] at hd
    have := map_digitChar_cancel (decDigits a).reverse [0]
      (fun e he => decDigits_mem_lt a e (List.mem_reverse.mp he)) (by decide) hd
    have hrev : decDigits a = [0] := by
      have := congrArg List.reverse this
      simpa using this
    have := ofDec_decDigits a
    rw [hrev] at this
    simp [ofDec] at this
    exact ha this.symm
  · rw [if_neg ha, if_neg hb] at h
    have hd : (decDigits a).reverse.map Nat.digitChar = (decDigits b).reverse.map Nat.digitChar :=
      congrArg String.data h
    have := map_digitChar_cancel (decDigits a).reverse (decDigits b).reverse
      (fun e he => decDigits_mem_lt a e (List.mem_reverse.mp he))
      (fun e he => decDigits_mem_lt b e (List.mem_reverse.mp he)) hd
    exact decDigits_injective (List.reverse_injective this)

theorem natToDecimalString_ne_empty (n : Nat) : natToDecimalString n ≠ "" := by
  unfold natToDecimalString
  by_cases h : n = 0
  · rw [if_pos h]; decide
  · rw [if_neg h]
    intro hcon
    have hd : (decDigits n).reverse.map Nat.digitChar = ([] : List Char) :=
      congrArg String.data hcon
    have hnil : decDigits n = [] := by
      have := List.map_eq_nil_iff.mp hd
      simpa using this
    have hval := ofDec_decDigits n
    rw [hnil] at hval
    simp only [ofDec] at hval
    exact h hval.symm

/-! ## Candidate names are pairwise distinct -/

theorem string_append_cancel_left {a b c : String} (h : a ++ b = a ++ c) : b = c := by
  apply String.ext
  have hd := congrArg String.data h
  rw [String.data_append, String.data_append] at hd
  exact List.append_cancel_left hd

theorem string_append_cancel_right {a b c : String} (h : a ++ c = b ++ c) : a = b := by
  apply String.ext
  have hd := congrArg String.data h
  rw [String.data_append, String.data_append] at hd
  exact List.append_cancel_right hd

theorem candidateName_zero (folder stem : String) :
    candidateName folder stem 0 = folder ++ "/" ++ stem ++ "_converted" ++ ".mp4" := by
  have h : ("_converted.mp4" : String) = "_converted" ++ ".mp4" := by decide
  unfold candidateName
  rw [if_pos rfl, h, ← String.append_assoc]

theorem candidateName_succ (folder stem : String) (k : Nat) :
    candidateName folder stem (k + 1) =
      folder ++ "/" ++ stem ++ "_converted" ++ "_" ++ natToDecimalString (k + 1) ++ ".mp4" := by
  have h : ("_converted_" : String) = "_converted" ++ "_" := by decide
  unfold candidateName
  rw [if_neg (Nat.succ_ne_zero k), h, ← String.append_assoc]

theorem candidateName_injective (folder stem : String) :
    Function.Injective (candidateName folder stem) := by
  intro a b h
  have hd := congrArg String.data h
  match a, b with
  | 0, 0 => rfl
  | 0, k + 1 =>
    exfalso
    unfold candidateName at hd
    rw [if_pos rfl, if_neg (Nat.succ_ne_zero k)] at hd
    simp only [String.data_append, List.append_assoc] at hd
    have h1 := List.append_cancel_left (List.append_cancel_left (List.append_cancel_left hd))
    have hlen := congrArg List.length h1
    rw [List.length_append, List.length_append] at hlen
    have e1 : ("_converted.mp4" : String).data.length = 14 := by decide
    have e2 : ("_converted_" : String).data.length = 11 := by decide
    have e3 : (".mp4" : String).data.length = 4 := by decide
    rw [e1, e2, e3] at hlen
    omega
  | k + 1, 0 =>
    exfalso
    unfold candidateName at hd
    rw [if_pos rfl, if_neg (Nat.succ_ne_zero k)] at hd
    simp only [String.data_append, List.append_assoc] at hd
    have h1 := List.append_cancel_left (List.append_cancel_left (List.append_cancel_left hd))
    have hlen := congrArg List.length h1
    rw [List.length_append, List.length_append] at hlen
    have e1 : ("_converted.mp4" : String).data.length = 14 := by decide
    have e2 : ("_converted_" : String).data.length = 11 := by decide
    have e3 : (".mp4" : String).data.length = 4 := by decide
    rw [e1, e2, e3] at hlen
    omega
  | a + 1, b + 1 =>
    unfold candidateName at hd
    rw [if_neg (Nat.succ_ne_zero a), if_neg (Nat.succ_ne_zero b)] at hd
    simp only [String.data_append, List.append_assoc] at hd
    have h1 := List.append_cancel_left (List.append_cancel_left
      (List.append_cancel_left (List.append_cancel_left hd)))
    have h2 := List.append_cancel_right h1
    have h3 : natToDecimalString (a + 1) = natToDecimalString (b + 1) := String.ext h2
    rw [natToDecimalString_injective h3]

/-! ## The allocation loop: pigeonhole, soundness, completeness -/

theorem exists_fresh_counter (fs : List String) (folder stem : String) :
    ∃ c, c ≤ fs.length ∧ candidateName folder stem c ∉ fs := by
  by_contra hcon
  push_neg at hcon
  have hsub : (Finset.range (fs.length + 1)).image (candidateName folder stem) ⊆
      fs.toFinset := by
    intro x hx
    simp only [Finset.mem_image, Finset.mem_range] at hx
    obtain ⟨c, hc, rfl⟩ := hx
    rw [List.mem_toFinset]
    exact hcon c (by omega)
  have hcard := Finset.card_le_card hsub
  rw [Finset.card_image_of_injective _ (candidateName_injective folder stem),
    Finset.card_range] at hcard
  have := List.toFinset_card_le fs
  omega

theorem output_path_eq_some (fs : List String) (folder stem : String) :
    ∀ fuel start c, start ≤ c → c < start + fuel →
      candidateName folder stem c ∉ fs →
      (∀ j, start ≤ j → j < c → candidateName folder stem j ∈ fs) →
      output_path fs folder stem fuel start = some (candidateName folder stem c) := by
  intro fuel
  induction fuel with
  | zero => intro start c h1 h2 _ _; omega
  | succ f ih =>
    intro start c h1 h2 hfree hmem
    rw [output_path]
    by_cases hs : candidateName folder stem start ∈ fs
    · rw [if_pos hs]
      have hne : start ≠ c := fun he => hfree (he ▸ hs)
      exact ih (start + 1) c (by omega) (by omega) hfree
        (fun j hj1 hj2 => hmem j (by omega) hj2)
    · rw [if_neg hs]
      have hse : start = c := by
        by_contra hne
        exact hs (hmem start le_rfl (by omega))
      rw [hse]

theorem output_path_some_spec (fs : List String) (folder stem : String) :
    ∀ fuel start p, output_path fs folder stem fuel start = some p →
      ∃ c, start ≤ c ∧ c < start + fuel ∧ p = candidateName folder stem c ∧
        candidateName folder stem c ∉ fs ∧
        ∀ j, start ≤ j → j < c → candidateName folder stem j ∈ fs := by
  intro fuel
  induction fuel with
  | zero => intro start p h; rw [output_path] at h; exact absurd h (by simp)
  | succ f ih =>
    intro start p h
    rw [output_path] at h
    by_cases hs : candidateName folder stem start ∈ fs
    · rw [if_pos hs] at h
      obtain ⟨c, hc1, hc2, hc3, hc4, hc5⟩ := ih (start + 1) p h
      refine ⟨c, by omega, by omega, hc3, hc4, fun j hj1 hj2 => ?_⟩
      rcases Nat.eq_or_lt_of_le hj1 with he | hl
      · rw [← he]; exact hs
      · exact hc5 j hl hj2
    · rw [if_neg hs] at h
      have hp : p = candidateName folder stem start := (Option.some.injEq _ _ ▸ h).symm
      exact ⟨start, le_rfl, by omega, hp, hs, fun j h1 h2 => by omega⟩

theorem output_path_total (fs : List String) (folder stem : String) (fuel : Nat)
    (h : fs.length < fuel) : ∃ p, output_path fs folder stem fuel 0 = some p := by
  obtain ⟨c, hc, hfree⟩ := exists_fresh_counter fs folder stem
  have hex : ∃ n, candidateName folder stem n ∉ fs := ⟨c, hfree⟩
  refine ⟨candidateName folder stem (Nat.find hex), ?_⟩
  apply output_path_eq_some
  · omega
  · have := Nat.find_min' hex hfree
    omega
  · exact Nat.find_spec hex
  · intro j _ hj2
    exact not_not.mp (Nat.find_min hex hj2)

theorem mainAllocLoop_eq_output_path (fs : List String) (folder stem : String) :
    ∀ fuel c, mainAllocLoop fs folder stem fuel (c + 1) (candidateName folder stem c) =
      output_path fs folder stem (fuel + 1) c := by
  intro fuel
  induction fuel with
  | zero =>
    intro c
    rw [mainAllocLoop, output_path]
    by_cases hs : candidateName folder stem c ∈ fs
    · rw [if_pos hs, if_pos hs, output_path]
    · rw [if_neg hs, if_neg hs]
  | succ f ih =>
    intro c
    rw [mainAllocLoop, output_path]
    by_cases hs : candidateName folder stem c ∈ fs
    · rw [if_pos hs, if_pos hs, ih (c + 1)]
    · rw [if_neg hs, if_neg hs]

theorem mainAlloc_eq_output_path (fs : List String) (folder stem : String) (fuel : Nat) :
    mainAlloc fs folder stem fuel = output_path fs folder stem (fuel + 1) 0 :=
  mainAllocLoop_eq_output_path fs folder stem fuel 0

/-! ## Structure of a completed batch -/

theorem convert_files_some_spec (fuel : Nat) (folder : String) :
    ∀ (jobs : List FileJob) (fs fsF : List String) (records : List Outcome) (o c : Nat),
      convert_files fuel folder jobs fs = some (records, fsF, o, c) →
      records.length = jobs.length ∧
      (∀ i (hi : i < jobs.length) (hr : i < records.length),
          (records.get ⟨i, hr⟩).isFailed =
            !((jobs.get ⟨i, hi⟩).input_exists && (jobs.get ⟨i, hi⟩).ffmpeg_ok) ∧
          recordMatchesJob (records.get ⟨i, hr⟩) (jobs.get ⟨i, hi⟩)) ∧
      o = ((jobs.filter fun j => j.input_exists).map fun j => j.size).sum ∧
      c = sumConvSuccess records := by
  intro jobs
  induction jobs with
  | nil =>
    intro fs fsF records o c h
    rw [convert_files] at h
    simp only [Option.some.injEq, Prod.mk.injEq] at h
    obtain ⟨h1, _, h3, h4⟩ := h
    subst h1
    refine ⟨rfl, ?_, ?_, ?_⟩
    · intro i hi _; simp at hi
    · simp [← h3]
    · simp [← h4, sumConvSuccess]
  | cons job rest ih =>
    intro fs fsF records o c h
    rw [convert_files] at h
    by_cases hex : job.input_exists = true
    · rw [if_pos hex] at h
      cases halloc : output_path fs folder (sanitizeStem job.path) fuel 0 with
      | none => simp [halloc] at h
      | some out =>
        simp only [halloc] at h
        by_cases hok : job.ffmpeg_ok = true
        · rw [if_pos hok] at h
          cases hrec : convert_files fuel folder rest (out :: fs) with
          | none => simp [hrec] at h
          | some q =>
            obtain ⟨recs, fsF2, o2, c2⟩ := q
            simp only [hrec] at h
            simp only [Option.some.injEq, Prod.mk.injEq] at h
            obtain ⟨h1, _, h3, h4⟩ := h
            obtain ⟨ihlen, ihidx, iho, ihc⟩ := ih (out :: fs) fsF2 recs o2 c2 hrec
            subst h1
            refine ⟨by simp [ihlen], ?_, ?_, ?_⟩
            · intro i hi hr
              cases i with
              | zero =>
                constructor
                · simp [Outcome.isFailed, hex, hok]
                · simp [recordMatchesJob]
              | succ i' =>
                simp only [List.length_cons, Nat.succ_lt_succ_iff] at hi hr
                simpa using ihidx i' hi hr
            · rw [← h3, iho]
              simp [List.filter_cons, hex]
            · rw [← h4, ihc]
              simp [sumConvSuccess, Outcome.convContribution]
        · rw [if_neg hok] at h
          cases hrec : convert_files fuel folder rest fs with
          | none => simp [hrec] at h
          | some q =>
            obtain ⟨recs, fsF2, o2, c2⟩ := q
            simp only [hrec] at h
            simp only [Option.some.injEq, Prod.mk.injEq] at h
            obtain ⟨h1, _, h3, h4⟩ := h
            obtain ⟨ihlen, ihidx, iho, ihc⟩ := ih fs fsF2 recs o2 c2 hrec
            subst h1
            refine ⟨by simp [ihlen], ?_, ?_, ?_⟩
            · intro i hi hr
              cases i with
              | zero =>
                constructor
                · simp [Outcome.isFailed, hex, hok]
                · simp [recordMatchesJob]
              | succ i' =>
                simp only [List.length_cons, Nat.succ_lt_succ_iff] at hi hr
                simpa using ihidx i' hi hr
            · rw [← h3, iho]
              simp [List.filter_cons, hex]
            · rw [← h4, ihc]
              simp [sumConvSuccess, Outcome.convContribution]
    · rw [if_neg hex] at h
      cases hrec : convert_files fuel folder rest fs with
      | none => simp [hrec] at h
      | some q =>
        obtain ⟨recs, fsF2, o2, c2⟩ := q
        simp only [hrec] at h
        simp only [Option.some.injEq, Prod.mk.injEq] at h
        obtain ⟨h1, _, h3, h4⟩ := h
        obtain ⟨ihlen, ihidx, iho, ihc⟩ := ih fs fsF2 recs o2 c2 hrec
        subst h1
        refine ⟨by simp [ihlen], ?_, ?_, ?_⟩
        · intro i hi hr
          cases i with
          | zero =>
            constructor
            · simp [Outcome.isFailed, Bool.not_eq_true] at hex ⊢
              simp [hex]
            · simp [recordMatchesJob]
          | succ i' =>
            simp only [List.length_cons, Nat.succ_lt_succ_iff] at hi hr
            simpa using ihidx i' hi hr
        · rw [← h3, iho]
          simp [List.filter_cons, hex]
        · rw [← h4, ihc]
          simp [sumConvSuccess, Outcome.convContribution]

theorem convert_files_isSome (folder : String) :
    ∀ (jobs : List FileJob) (fs : List String) (fuel : Nat),
      fs.length + jobs.length < fuel →
      ∃ out, convert_files fuel folder jobs fs = some out := by
  intro jobs
  induction jobs with
  | nil =>
    intro fs fuel _
    exact ⟨([], fs, 0, 0), by rw [convert_files]⟩
  | cons job rest ih =>
    intro fs fuel h
    rw [convert_files]
    simp only [List.length_cons] at h
    by_cases hex : job.input_exists = true
    · rw [if_pos hex]
      obtain ⟨p, hp⟩ := output_path_total fs folder (sanitizeStem job.path) fuel (by omega)
      by_cases hok : job.ffmpeg_ok = true
      · obtain ⟨⟨recs, fsF, o, c⟩, hout⟩ := ih (p :: fs) fuel (by simp; omega)
        rw [hp]
        simp only [if_pos hok, hout]
        exact ⟨_, rfl⟩
      · obtain ⟨⟨recs, fsF, o, c⟩, hout⟩ := ih fs fuel (by omega)
        rw [hp]
        simp only [if_neg hok, hout]
        exact ⟨_, rfl⟩
    · rw [if_neg hex]
      obtain ⟨⟨recs, fsF, o, c⟩, hout⟩ := ih fs fuel (by omega)
      simp only [hout]
      exact ⟨_, rfl⟩

/-! ## Structure of the directory scan -/

theorem scan_foldl_spec :
    ∀ (entries : List DirEntry) (acc : List String × List String),
      entries.foldl scanStep acc =
        (acc.1 ++ (entries.filter eligE).map (fun e => e.path),
          acc.2 ++ entries.filterMap rejMsg) := by
  intro entries
  induction entries with
  | nil => intro acc; simp
  | cons e rest ih =>
    intro acc
    rw [List.foldl_cons, ih]
    by_cases hd : e.is_dir = true
    · have he : eligE e = false := by simp [eligE, hd]
      have hr : rejMsg e = none := by simp [rejMsg, hd]
      simp [scanStep, hd, List.filter_cons, he, hr]
    · by_cases hf : e.is_file = true
      · rcases hc : check_file_convertibility e.path e.probe with ⟨v, m⟩
        cases v with
        | true =>
          have he : eligE e = true := by simp [eligE, hd, hf, hc]
          have hr : rejMsg e = none := by simp [rejMsg, hd, hf, hc]
          simp [scanStep, hd, hf, hc, List.filter_cons, he, hr]
        | false =>
          have he : eligE e = false := by simp [eligE, hd, hf, hc]
          have hr : rejMsg e = some m := by simp [rejMsg, hd, hf, hc]
          simp [scanStep, hd, hf, hc, List.filter_cons, he, hr]
      · have he : eligE e = false := by simp [eligE, hd, hf]
        have hr : rejMsg e = some ("\"" ++ e.name ++ "\" is not a file.") := by
          simp [rejMsg, hd, hf]
        simp [scanStep, hd, hf, List.filter_cons, he, hr]

theorem scan_directory_spec (entries : List DirEntry) :
    scan_directory entries =
      (if ((entries.filter eligE).map (fun e => e.path)).isEmpty then none
        else some ((entries.filter eligE).map (fun e => e.path)),
       entries.filterMap rejMsg ++
         (if ((entries.filter eligE).map (fun e => e.path)).isEmpty then
            ["No matching files found in directory."] else [])) := by
  unfold scan_directory
  rw [scan_foldl_spec entries ([], [])]
  simp only [List.nil_append]
  by_cases hemp : ((entries.filter eligE).map (fun e => e.path)).isEmpty = true
  · rw [if_pos hemp, if_pos hemp, if_pos hemp]
  · rw [if_neg hemp, if_neg hemp, if_neg hemp]
    simp

theorem scan_directory_files (entries : List DirEntry) (files logs : List String)
    (h : scan_directory entries = (some files, logs)) :
    files = (entries.filter eligE).map (fun e => e.path) := by
  rw [scan_directory_spec] at h
  by_cases hemp : ((entries.filter eligE).map (fun e => e.path)).isEmpty = true
  · rw [if_pos hemp] at h
    exact absurd (congrArg Prod.fst h) (by simp)
  · rw [if_neg hemp] at h
    have := congrArg Prod.fst h
    simp only at this
    exact (Option.some.injEq _ _ ▸ this).symm

/-! ## Structure of the size formatter -/

theorem formatAt_shape (bytes k : Nat) :
    ∃ a b, b < 10 ∧ formatAt bytes k = natToDecimalString a ++ "." ++ natToDecimalString b := by
  refine ⟨_, _, Nat.mod_lt _ (by norm_num), rfl⟩

theorem get_file_size_none (n : Nat) (h : 1024 ^ 4 ≤ n) : get_file_size n = none := by
  have h' : 1099511627776 ≤ n := by norm_num at h; omega
  have c1 : ¬ n < 1024 ^ (0 + 1) := by norm_num; omega
  have c2 : ¬ n < 1024 ^ (0 + 1 + 1) := by norm_num; omega
  have c3 : ¬ n < 1024 ^ (0 + 1 + 1 + 1) := by norm_num; omega
  have c4 : ¬ n < 1024 ^ (0 + 1 + 1 + 1 + 1) := by norm_num; omega
  unfold get_file_size sizeUnits
  rw [sizeLoop, if_neg c1, sizeLoop, if_neg c2, sizeLoop, if_neg c3, sizeLoop, if_neg c4,
    sizeLoop]

theorem get_file_size_eq (n k : Nat) (hk : k < 4) (hlt : n < 1024 ^ (k + 1))
    (hmin : ∀ j, j < k → 1024 ^ (j + 1) ≤ n) :
    get_file_size n = some (formatAt n k ++ " " ++ unitName k) := by
  unfold get_file_size sizeUnits
  interval_cases k
  · rw [sizeLoop, if_pos (by norm_num at hlt ⊢; omega)]
    rfl
  · have h0 : 1024 ^ (0 + 1) ≤ n := hmin 0 (by omega)
    rw [sizeLoop, if_neg (by norm_num at h0 ⊢; omega),
      sizeLoop, if_pos (by norm_num at hlt ⊢; omega)]
    norm_num
    rfl
  · have h0 : 1024 ^ (0 + 1) ≤ n := hmin 0 (by omega)
    have h1 : 1024 ^ (1 + 1) ≤ n := hmin 1 (by omega)
    rw [sizeLoop, if_neg (by norm_num at h0 ⊢; omega),
      sizeLoop, if_neg (by norm_num at h1 ⊢; omega),
      sizeLoop, if_pos (by norm_num at hlt ⊢; omega)]
    norm_num
    rfl
  · have h0 : 1024 ^ (0 + 1) ≤ n := hmin 0 (by omega)
    have h1 : 1024 ^ (1 + 1) ≤ n := hmin 1 (by omega)
    have h2 : 1024 ^ (2 + 1) ≤ n := hmin 2 (by omega)
    rw [sizeLoop, if_neg (by norm_num at h0 ⊢; omega),
      sizeLoop, if_neg (by norm_num at h1 ⊢; omega),
      sizeLoop, if_neg (by norm_num at h2 ⊢; omega),
      sizeLoop, if_pos (by norm_num at hlt ⊢; omega)]
    norm_num
    rfl

/-! ## The filter always returns a message -/

theorem check_snd_ne_empty (file_path : String) (probe : ProbeOutcome) :
    (check_file_convertibility file_path probe).2 ≠ "" := by
  unfold check_file_convertibility
  cases probe with
  | ok out errOut =>
    dsimp only
    by_cases hc : pyTrim out ≠ ""
    · rw [if_pos hc]
      intro hcon
      have hd := congrArg String.length hcon
      simp only [String.length_append] at hd
      have e1 : ("\"" : String).length = 1 := by decide
      rw [e1] at hd
      simp at hd
    · rw [if_neg hc]
      intro hcon
      have hd := congrArg String.length hcon
      simp only [String.length_append] at hd
      have e1 : ("Problem found in \"" : String).length = 18 := by decide
      rw [e1] at hd
      simp at hd
  | err errOut =>
    dsimp only
    intro hcon
    have hd := congrArg String.length hcon
    simp only [String.length_append] at hd
    have e1 : ("Error checking \"" : String).length = 16 := by decide
    rw [e1] at hd
    simp at hd

/-! ## Structure of main.py's batch loop -/

theorem main_convert_files_complete (folder : String) :
    ∀ (jobs : List FileJob) (fs : List String) (fuel : Nat),
      fs.length + jobs.length < fuel →
      (∀ j ∈ jobs, j.input_exists = true) →
      ∃ records fsF o c,
        main_convert_files fuel folder jobs fs =
          some (MainBatchResult.completed records fsF o c) ∧
        records.length = jobs.length ∧
        (∀ i (hi : i < jobs.length) (hr : i < records.length),
          (jobs.get ⟨i, hi⟩).ffmpeg_ok = false → (records.get ⟨i, hr⟩).isFailed = true) := by
  intro jobs
  induction jobs with
  | nil =>
    intro fs fuel _ _
    exact ⟨[], fs, 0, 0, by rw [main_convert_files], rfl, fun i hi _ => by simp at hi⟩
  | cons job rest ih =>
    intro fs fuel hfuel hex
    simp only [List.length_cons] at hfuel
    have hj : job.input_exists = true := hex job (by simp)
    have hrest : ∀ j ∈ rest, j.input_exists = true := fun j hjm => hex j (by simp [hjm])
    rw [main_convert_files, if_pos hj]
    obtain ⟨p, hp⟩ := output_path_total fs folder (sanitizeStem job.path) (fuel + 1) (by omega)
    have halloc : mainAlloc fs folder (sanitizeStem job.path) fuel = some p := by
      rw [mainAlloc_eq_output_path]
      exact hp
    by_cases hok : job.ffmpeg_ok = true
    · obtain ⟨recs, fsF, o, c, hrec, hlen, hidx⟩ := ih (p :: fs) fuel (by simp; omega) hrest
      refine ⟨Outcome.success (pyName job.path) (pyName p) job.size job.out_size :: recs,
        fsF, job.size + o, job.out_size + c, ?_, by simp [hlen], ?_⟩
      · simp only [halloc, if_pos hok, hrec]
      · intro i hi hr hb
        cases i with
        | zero =>
          simp only [List.get] at hb
          rw [hok] at hb
          exact absurd hb (by simp)
        | succ k =>
          simp only [List.length_cons, Nat.succ_lt_succ_iff] at hi hr
          simp only [List.get_cons_succ] at hb ⊢
          exact hidx k hi hr hb
    · obtain ⟨recs, fsF, o, c, hrec, hlen, hidx⟩ := ih fs fuel (by omega) hrest
      refine ⟨Outcome.failed job.path :: recs, fsF, job.size + o, c, ?_, by simp [hlen], ?_⟩
      · simp only [halloc, if_neg hok, hrec]
      · intro i hi hr _
        cases i with
        | zero => simp [Outcome.isFailed]
        | succ k =>
          simp only [List.length_cons, Nat.succ_lt_succ_iff] at hi hr
          simp only [List.get_cons_succ] at *
          exact hidx k hi hr (by assumption)

theorem main_convert_files_aborts (folder : String) :
    ∀ (pre : List FileJob) (bad : FileJob) (rest : List FileJob) (fs : List String) (fuel : Nat),
      fs.length + pre.length < fuel →
      (∀ j ∈ pre, j.input_exists = true) →
      bad.input_exists = false →
      main_convert_files fuel folder (pre ++ bad :: rest) fs =
        some (MainBatchResult.aborted bad.path) := by
  intro pre
  induction pre with
  | nil =>
    intro bad rest fs fuel _ _ hbad
    rw [List.nil_append, main_convert_files, if_neg (by simp [hbad])]
  | cons job pre ih =>
    intro bad rest fs fuel hfuel hex hbad
    simp only [List.length_cons] at hfuel
    have hj : job.input_exists = true := hex job (by simp)
    have hpre : ∀ j ∈ pre, j.input_exists = true := fun j hjm => hex j (by simp [hjm])
    rw [List.cons_append, main_convert_files, if_pos hj]
    obtain ⟨p, hp⟩ := output_path_total fs folder (sanitizeStem job.path) (fuel + 1) (by omega)
    have halloc : mainAlloc fs folder (sanitizeStem job.path) fuel = some p := by
      rw [mainAlloc_eq_output_path]
      exact hp
    by_cases hok : job.ffmpeg_ok = true
    · have hrec := ih bad rest (p :: fs) fuel (by simp; omega) hpre hbad
      simp only [halloc, if_pos hok, hrec]
    · have hrec := ih bad rest fs fuel (by omega) hpre hbad
      simp only [halloc, if_neg hok, hrec]

/-! ## Claims -/

/-- C1: for a run of the batch, every candidate file judged eligible by the
Convertibility Filter yields exactly one ConversionRecord in the batch output —
the records are one per processed file in order, so their number equals the
number of entries the scan judged eligible (and equals the number of files the
scan handed to the batch). -/
theorem c1_one_record_per_eligible_candidate
    (entries : List DirEntry) (env : String → FileJob) (fuel : Nat) (folder : String)
    (fs fsF : List String) (files logs : List String) (records : List Outcome) (o c : Nat)
    (hscan : scan_directory entries = (some files, logs))
    (hconv : convert_files fuel folder (files.map env) fs = some (records, fsF, o, c)) :
    records.length = (entries.filter eligE).length ∧ records.length = files.length := by
  have hf := scan_directory_files entries files logs hscan
  have hs := convert_files_some_spec fuel folder (files.map env) fs fsF records o c hconv
  have hlen := hs.1
  rw [List.length_map] at hlen
  exact ⟨by rw [hlen, hf, List.length_map], hlen⟩

/-- C1 witness: a one-entry directory with an eligible file produces exactly one
record. -/
theorem c1_witness :
    ([Outcome.success "a.avi" "a_converted.mp4" 100 40] : List Outcome).length =
      (([⟨"a.avi", "in/a.avi", false, true, ProbeOutcome.ok "h264" ""⟩] :
        List DirEntry).filter eligE).length ∧
    ([Outcome.success "a.avi" "a_converted.mp4" 100 40] : List Outcome).length =
      (["in/a.avi"] : List String).length :=
  c1_one_record_per_eligible_candidate
    [⟨"a.avi", "in/a.avi", false, true, ProbeOutcome.ok "h264" ""⟩]
    (fun p => ⟨p, true, 100, true, 40⟩) 2 "out" [] ["out/a_converted.mp4"]
    ["in/a.avi"] [] [Outcome.success "a.avi" "a_converted.mp4" 100 40] 100 40 rfl rfl

/-- C2: when exactly the candidate names with counters `0 .. N-1` for this stem are
present on disk (N prior allocations, each materialized), the next call of the
Output Path Allocator returns the counter-`N` name: `{stem}_converted.mp4` for
`N = 0`, and `{stem}_converted_N.mp4` otherwise. -/
theorem c2_nth_allocation (fs : List String) (folder stem : String) (N fuel : Nat)
    (hfs : ∀ cnt, candidateName folder stem cnt ∈ fs ↔ cnt < N)
    (hfuel : N < fuel) :
    output_path fs folder stem fuel 0 = some (candidateName folder stem N) ∧
    candidateName folder stem 0 = folder ++ "/" ++ stem ++ "_converted.mp4" ∧
    (N ≠ 0 → candidateName folder stem N =
      folder ++ "/" ++ stem ++ "_converted_" ++ natToDecimalString N ++ ".mp4") := by
  refine ⟨?_, by unfold candidateName; rw [if_pos rfl],
    fun hN => by unfold candidateName; rw [if_neg hN]⟩
  apply output_path_eq_some
  · omega
  · omega
  · intro hmem
    exact absurd ((hfs N).mp hmem) (lt_irrefl N)
  · intro j _ hjN
    exact (hfs j).mpr hjN

/-- C2 witness: after one materialized allocation for stem `clip`, the second call
returns `clip_converted_1.mp4`. -/
theorem c2_witness :
    output_path [candidateName "out" "clip" 0] "out" "clip" 2 0 =
      some (candidateName "out" "clip" 1) ∧
    candidateName "out" "clip" 0 = "out" ++ "/" ++ "clip" ++ "_converted.mp4" ∧
    (1 ≠ 0 → candidateName "out" "clip" 1 =
      "out" ++ "/" ++ "clip" ++ "_converted_" ++ natToDecimalString 1 ++ ".mp4") :=
  c2_nth_allocation [candidateName "out" "clip" 0] "out" "clip" 1 2
    (fun cnt =>
      ⟨fun h => by
        have h2 := List.mem_singleton.mp h
        have := candidateName_injective "out" "clip" h2
        omega,
        fun h => by
          have hc : cnt = 0 := by omega
          rw [hc]
          exact List.mem_singleton.mpr rfl⟩)
    (by omega)

/-- C3 counterexample: a batch with one eligible file whose conversion fails
finalizes with original-size total 100, while the sum of original sizes over
Success records is 0 — the original-size aggregate does not reflect Success
records only, contradicting the claim. -/
theorem c3_counterexample :
    convert_files 2 "out" [⟨"in/a.avi", true, 100, false, 0⟩] [] =
      some ([Outcome.failed "in/a.avi"], [], 100, 0) ∧
    sumOrigSuccess [Outcome.failed "in/a.avi"] = 0 ∧
    (100 : Nat) ≠ 0 :=
  ⟨rfl, rfl, by omega⟩

/-- C3 (amended): the converted-size total equals the sum of converted sizes over
Success records only, but the original-size total equals the sum of original
sizes over all candidates whose input file existed when processed — a conversion
that fails after its input was measured still contributes its original size to
the original-size aggregate (a missing input contributes to neither). -/
theorem c3_totals (fuel : Nat) (folder : String) (jobs : List FileJob) (fs fsF : List String)
    (records : List Outcome) (o c : Nat)
    (h : convert_files fuel folder jobs fs = some (records, fsF, o, c)) :
    c = sumConvSuccess records ∧
    o = ((jobs.filter fun j => j.input_exists).map fun j => j.size).sum := by
  obtain ⟨_, _, ho, hc⟩ := convert_files_some_spec fuel folder jobs fs fsF records o c h
  exact ⟨hc, ho⟩

/-- C3 witness: in a two-file batch (one success of converted size 40, one ffmpeg
failure), the converted total is 40 — the Success record only — while the
original total 160 also counts the failed file's 60 bytes. -/
theorem c3_witness :
    (40 : Nat) = sumConvSuccess [Outcome.success "a.avi" "a_converted.mp4" 100 40,
      Outcome.failed "in/b.avi"] ∧
    (160 : Nat) = ((([⟨"in/a.avi", true, 100, true, 40⟩, ⟨"in/b.avi", true, 60, false, 0⟩] :
      List FileJob).filter fun j => j.input_exists).map fun j => j.size).sum :=
  c3_totals 4 "out" [⟨"in/a.avi", true, 100, true, 40⟩, ⟨"in/b.avi", true, 60, false, 0⟩]
    [] ["out/a_converted.mp4"]
    [Outcome.success "a.avi" "a_converted.mp4" 100 40, Outcome.failed "in/b.avi"] 160 40 rfl

/-- C4: whenever the Output Path Allocator returns a path, that path does not
exist on the filesystem at call time, and it is the first name of the
deterministic candidate sequence (counter 0, 1, 2, ...) not present: every
earlier candidate name is on the filesystem. -/
theorem c4_first_free_name (fs : List String) (folder stem : String) (fuel : Nat) (p : String)
    (h : output_path fs folder stem fuel 0 = some p) :
    p ∉ fs ∧ ∃ cnt, p = candidateName folder stem cnt ∧
      ∀ j, j < cnt → candidateName folder stem j ∈ fs := by
  obtain ⟨cnt, _, _, hp, hfree, hmem⟩ := output_path_some_spec fs folder stem fuel 0 p h
  exact ⟨hp ▸ hfree, cnt, hp, fun j hj => hmem j (by omega) hj⟩

/-- C4 witness: with `out/clip_converted.mp4` on disk the allocator returns
`out/clip_converted_1.mp4`, which is fresh and preceded only by existing names. -/
theorem c4_witness :
    "out/clip_converted_1.mp4" ∉ (["out/clip_converted.mp4"] : List String) ∧
    ∃ cnt, "out/clip_converted_1.mp4" = candidateName "out" "clip" cnt ∧
      ∀ j, j < cnt → candidateName "out" "clip" j ∈ (["out/clip_converted.mp4"] : List String) :=
  c4_first_free_name ["out/clip_converted.mp4"] "out" "clip" 2 "out/clip_converted_1.mp4" rfl

/-- C5 counterexample: in main.py's `convert_files` a vanished input raises
`FileNotFoundError` at `os.path.getsize` (line 105), and the only per-file
handler catches `subprocess.CalledProcessError` (line 135), so the batch with a
missing first input aborts: no Failed record for that file, the remaining
perfectly convertible candidate is never processed, and no summary is emitted. -/
theorem c5_counterexample_main_abort :
    main_convert_files 3 "out" [⟨"in/gone.avi", false, 0, true, 0⟩,
      ⟨"in/b.avi", true, 60, true, 30⟩] [] =
      some (MainBatchResult.aborted "in/gone.avi") ∧
    (main_convert_files 3 "out" [⟨"in/gone.avi", false, 0, true, 0⟩,
      ⟨"in/b.avi", true, 60, true, 30⟩] []).map MainBatchResult.isCompleted = some false :=
  ⟨rfl, rfl⟩

/-- C5 (amended): in mediaconv.py's `convert_files` both error shapes are
recovered per file — the batch always completes and emits its summary, every
file gets a record, and a missing input or non-zero transcoder exit yields a
Failed record at that file's position.  In main.py's `convert_files` only the
transcoder failure is recovered (Failed record, batch continues, summary
emitted when all inputs exist); a FileNotFound on a vanished input propagates
uncaught and aborts the whole batch, whatever candidates remain. -/
theorem c5_per_file_error_policy :
    (∀ (fuel : Nat) (folder : String) (jobs : List FileJob) (fs : List String),
      fs.length + jobs.length < fuel →
      ∃ records fsF o c, convert_files fuel folder jobs fs = some (records, fsF, o, c) ∧
        records.length = jobs.length ∧
        ∀ i (hi : i < jobs.length) (hr : i < records.length),
          ((jobs.get ⟨i, hi⟩).input_exists = false ∨ (jobs.get ⟨i, hi⟩).ffmpeg_ok = false) →
          (records.get ⟨i, hr⟩).isFailed = true) ∧
    (∀ (fuel : Nat) (folder : String) (jobs : List FileJob) (fs : List String),
      fs.length + jobs.length < fuel →
      (∀ j ∈ jobs, j.input_exists = true) →
      ∃ records fsF o c,
        main_convert_files fuel folder jobs fs =
          some (MainBatchResult.completed records fsF o c) ∧
        records.length = jobs.length ∧
        ∀ i (hi : i < jobs.length) (hr : i < records.length),
          (jobs.get ⟨i, hi⟩).ffmpeg_ok = false → (records.get ⟨i, hr⟩).isFailed = true) ∧
    (∀ (fuel : Nat) (folder : String) (pre : List FileJob) (bad : FileJob)
        (rest : List FileJob) (fs : List String),
      fs.length + pre.length < fuel →
      (∀ j ∈ pre, j.input_exists = true) →
      bad.input_exists = false →
      main_convert_files fuel folder (pre ++ bad :: rest) fs =
        some (MainBatchResult.aborted bad.path)) := by
  refine ⟨?_, ?_, ?_⟩
  · intro fuel folder jobs fs hfuel
    obtain ⟨⟨records, fsF, o, c⟩, hout⟩ := convert_files_isSome folder jobs fs fuel hfuel
    obtain ⟨hlen, hidx, _, _⟩ := convert_files_some_spec fuel folder jobs fs fsF records o c hout
    refine ⟨records, fsF, o, c, hout, hlen, ?_⟩
    intro i hi hr hbad
    have hfail := (hidx i hi hr).1
    rcases hbad with hb | hb <;> rw [hfail, hb] <;> simp
  · intro fuel folder jobs fs hfuel hex
    exact main_convert_files_complete folder jobs fs fuel hfuel hex
  · intro fuel folder pre bad rest fs hfuel hex hbad
    exact main_convert_files_aborts folder pre bad rest fs fuel hfuel hex hbad

/-- C5 witness: a concrete main.py batch whose inputs all exist completes with
one record per file and a Failed record for the ffmpeg failure. -/
theorem c5_policy_witness :
    ∃ records fsF o c,
      main_convert_files 4 "out" [⟨"in/a.avi", true, 100, true, 40⟩,
        ⟨"in/b.avi", true, 60, false, 0⟩] [] =
        some (MainBatchResult.completed records fsF o c) ∧
      records.length = ([⟨"in/a.avi", true, 100, true, 40⟩,
        ⟨"in/b.avi", true, 60, false, 0⟩] : List FileJob).length ∧
      ∀ i (hi : i < ([⟨"in/a.avi", true, 100, true, 40⟩,
        ⟨"in/b.avi", true, 60, false, 0⟩] : List FileJob).length) (hr : i < records.length),
        (([⟨"in/a.avi", true, 100, true, 40⟩, ⟨"in/b.avi", true, 60, false, 0⟩] :
          List FileJob).get ⟨i, hi⟩).ffmpeg_ok = false →
        (records.get ⟨i, hr⟩).isFailed = true :=
  c5_per_file_error_policy.2.1 4 "out"
    [⟨"in/a.avi", true, 100, true, 40⟩, ⟨"in/b.avi", true, 60, false, 0⟩] []
    (by decide) (by decide)

/-- C6 counterexample: for a file whose probe reports codec `h264`, the filter
returns eligible=true together with a non-empty informational message — not
"eligible=true with no message" as the claim states. -/
theorem c6_counterexample_success_message :
    (check_file_convertibility "in/a.avi" (ProbeOutcome.ok "h264" "")).1 = true ∧
    (check_file_convertibility "in/a.avi" (ProbeOutcome.ok "h264" "")).2 =
      "\"in/a.avi\" can be converted to .mp4." ∧
    (check_file_convertibility "in/a.avi" (ProbeOutcome.ok "h264" "")).2 ≠ "" :=
  ⟨rfl, rfl, by decide⟩

/-- C6 (amended): when the probe reports a codec name the filter returns
eligible=true together with a non-empty informational message, which the
directory scan discards — the scan log carries no line for eligible files; when
the probe reports no codec or exits non-zero the filter returns eligible=false
with a non-empty descriptive reason, and the probe error is converted into the
verdict rather than propagated; the scan logs a not-a-file line for entries
that are neither files nor directories, and silently skips directories. -/
theorem c6_filter_and_scan_verdicts :
    (∀ path out errOut : String, pyTrim out ≠ "" →
      (check_file_convertibility path (ProbeOutcome.ok out errOut)).1 = true ∧
      (check_file_convertibility path (ProbeOutcome.ok out errOut)).2 ≠ "") ∧
    (∀ path out errOut : String, pyTrim out = "" →
      (check_file_convertibility path (ProbeOutcome.ok out errOut)).1 = false ∧
      (check_file_convertibility path (ProbeOutcome.ok out errOut)).2 ≠ "") ∧
    (∀ path errOut : String,
      (check_file_convertibility path (ProbeOutcome.err errOut)).1 = false ∧
      (check_file_convertibility path (ProbeOutcome.err errOut)).2 ≠ "") ∧
    (∀ entries : List DirEntry,
      (scan_directory entries).2 = entries.filterMap rejMsg ++
        (if ((entries.filter eligE).map (fun e => e.path)).isEmpty then
          ["No matching files found in directory."] else [])) ∧
    (∀ e : DirEntry, e.is_dir = false → e.is_file = true →
      (check_file_convertibility e.path e.probe).1 = true → rejMsg e = none) ∧
    (∀ e : DirEntry, e.is_dir = true → rejMsg e = none) ∧
    (∀ e : DirEntry, e.is_dir = false → e.is_file = false →
      rejMsg e = some ("\"" ++ e.name ++ "\" is not a file.")) := by
  refine ⟨?_, ?_, ?_, ?_, ?_, ?_, ?_⟩
  · intro path out errOut h
    constructor
    · unfold check_file_convertibility
      dsimp only
      rw [if_pos h]
    · exact check_snd_ne_empty path _
  · intro path out errOut h
    constructor
    · unfold check_file_convertibility
      dsimp only
      rw [if_neg (by simp [h])]
    · exact check_snd_ne_empty path _
  · intro path errOut
    exact ⟨rfl, check_snd_ne_empty path _⟩
  · intro entries
    have := scan_directory_spec entries
    exact congrArg Prod.snd this
  · intro e hd hf hv
    unfold rejMsg
    rw [if_neg (by simp [hd]), if_pos hf]
    rcases hc : check_file_convertibility e.path e.probe with ⟨v, m⟩
    rw [hc] at hv
    simp only at hv
    rw [hv]
  · intro e hd
    unfold rejMsg
    rw [if_pos hd]
  · intro e hd hf
    unfold rejMsg
    rw [if_neg (by simp [hd]), if_neg (by simp [hf])]

/-- C6 witness: a concrete eligible probe outcome instantiating the first
amended clause. -/
theorem c6_witness :
    (check_file_convertibility "in/b.mov" (ProbeOutcome.ok "h264" "")).1 = true ∧
    (check_file_convertibility "in/b.mov" (ProbeOutcome.ok "h264" "")).2 ≠ "" :=
  c6_filter_and_scan_verdicts.1 "in/b.mov" "h264" "" (by decide)

/-- C7 counterexample: at byte count `1024 ^ 4` the formatter selects no unit
and renders nothing at all — it returns `None` instead of a formatted string,
so the claimed behavior fails for this non-negative byte count. -/
theorem c7_counterexample_no_rendering :
    get_file_size (1024 ^ 4) = none ∧ (get_file_size (1024 ^ 4)).isSome = false :=
  ⟨get_file_size_none (1024 ^ 4) le_rfl, by rw [get_file_size_none (1024 ^ 4) le_rfl]; rfl⟩

/-- C7 (amended): for every byte count below `1024 ^ 4`, the formatter selects
the first unit among B, KB, MB, GB for which the remaining magnitude
`bytes / 1024 ^ k` is below 1024 and renders that magnitude with exactly one
fractional digit (round-half-even); in particular 0 renders as "0.0 B", 1536 as
"1.5 KB" and 1048576 as "1.0 MB".  For byte counts of `1024 ^ 4` and above no
unit matches and no string is produced. -/
theorem c7_formatter_below_limit (n k : Nat) (hk : k < 4) (hlt : n < 1024 ^ (k + 1))
    (hmin : ∀ j, j < k → 1024 ^ (j + 1) ≤ n) :
    get_file_size n = some (formatAt n k ++ " " ++ unitName k) ∧
    (∃ a b, b < 10 ∧ formatAt n k = natToDecimalString a ++ "." ++ natToDecimalString b) ∧
    get_file_size 0 = some "0.0 B" ∧
    get_file_size 1536 = some "1.5 KB" ∧
    get_file_size 1048576 = some "1.0 MB" :=
  ⟨get_file_size_eq n k hk hlt hmin, formatAt_shape n k, rfl, rfl, rfl⟩

/-- C7 witness: 1536 bytes select the KB unit (k = 1). -/
theorem c7_witness :
    get_file_size 1536 = some (formatAt 1536 1 ++ " " ++ unitName 1) ∧
    (∃ a b, b < 10 ∧ formatAt 1536 1 = natToDecimalString a ++ "." ++ natToDecimalString b) ∧
    get_file_size 0 = some "0.0 B" ∧
    get_file_size 1536 = some "1.5 KB" ∧
    get_file_size 1048576 = some "1.0 MB" :=
  c7_formatter_below_limit 1536 1 (by omega) (by norm_num)
    (fun j hj => by interval_cases j; norm_num)

/-- C8: the bitrate-reduction variant computes its target bitrate as the current
video bitrate multiplied by the ratio of target size to current size, scaled by
the ratio of the output resolution area to the 1280x720 area, truncated to an
integer. -/
theorem c8_target_bitrate_formula (cur tgt : ℚ) (br w h : ℤ) (hc : cur ≠ 0) :
    calculate_target_bitrate cur tgt br w h =
      pyInt ((br : ℚ) * (tgt / cur) * (((w : ℚ) * (h : ℚ)) / (1280 * 720))) := by
  have harg : (tgt / cur) * (br : ℚ) * ((w : ℚ) * (h : ℚ)) / (1280 * 720) =
      (br : ℚ) * (tgt / cur) * (((w : ℚ) * (h : ℚ)) / (1280 * 720)) := by ring
  unfold calculate_target_bitrate
  show pyInt ((tgt / cur) * (br : ℚ) * ((w : ℚ) * (h : ℚ)) / (1280 * 720)) = _
  rw [harg]

/-- C8 witness: halving a file at 720p keeps the area factor at 1 and halves the
bitrate. -/
theorem c8_witness :
    calculate_target_bitrate 2 1 1000 1280 720 =
      pyInt (((1000 : ℤ) : ℚ) * ((1 : ℚ) / (2 : ℚ)) *
        ((((1280 : ℤ) : ℚ) * ((720 : ℤ) : ℚ)) / (1280 * 720))) :=
  c8_target_bitrate_formula 2 1 1000 1280 720 (by norm_num)

/-- C9: the size formatter is partial: for every byte count of at least
`1024 ^ 4` the unit loop is exhausted and no string is returned (Python `None`),
and interpolating that return value into a log line renders the literal text
`None`. -/
theorem c9_formatter_partial (n : Nat) (h : 1024 ^ 4 ≤ n) :
    get_file_size n = none ∧ pyStr (get_file_size n) = "None" := by
  have hn := get_file_size_none n h
  exact ⟨hn, by rw [hn]; rfl⟩

/-- C9 witness: a terabyte-scale size renders as the text `None`. -/
theorem c9_witness :
    get_file_size (1024 ^ 4 + 5) = none ∧ pyStr (get_file_size (1024 ^ 4 + 5)) = "None" :=
  c9_formatter_partial (1024 ^ 4 + 5) (by norm_num)

/-- C10: the allocator's unbounded search loop terminates for every call: on any
(finite) filesystem there is a result name the loop returns as soon as it is
given more iterations than there are existing paths — the result does not
depend on the iteration bound. -/
theorem c10_allocator_terminates (fs : List String) (folder stem : String) :
    ∃ p, ∀ fuel, fs.length < fuel → output_path fs folder stem fuel 0 = some p := by
  obtain ⟨cB, hcB, hfree⟩ := exists_fresh_counter fs folder stem
  have hex : ∃ n, candidateName folder stem n ∉ fs := ⟨cB, hfree⟩
  refine ⟨candidateName folder stem (Nat.find hex), fun fuel hfuel => ?_⟩
  apply output_path_eq_some
  · omega
  · have := Nat.find_min' hex hfree
    omega
  · exact Nat.find_spec hex
  · intro j _ hj2
    exact not_not.mp (Nat.find_min hex hj2)

/-- C10 witness: the loop terminates on a concrete one-entry filesystem. -/
theorem c10_witness :
    ∃ p, ∀ fuel, (["out/clip_converted.mp4"] : List String).length < fuel →
      output_path ["out/clip_converted.mp4"] "out" "clip" fuel 0 = some p :=
  c10_allocator_terminates ["out/clip_converted.mp4"] "out" "clip"
